import Mathlib

/-!
Verification development for the `roxmltree_to_serde` crate (src/lib.rs):
conversion of a parsed XML node tree into a JSON-like value tree.

Shallow embedding notes:
- `serde_json::Value` is modelled by `Value`; `serde_json::Map` (a `BTreeMap`,
  therefore key-sorted: see the crate doc example output in lib.rs line 35,
  where `"#text"` precedes `"@attr2"`) is modelled by a key-sorted association
  list `JMap` with first-match lookup.  Keys are ordered bytewise, which for
  UTF-8 agrees with code-point order, modelled on the character lists.
- `serde_json::Number` holds either an unsigned integer (from `u64`) or a
  finite float (from `Number::from_f64`).  `f64` values are modelled by exact
  unnormalized fractions `DecFrac`; the string-to-`f64` grammar of Rust's
  `FromStr` is implemented exactly, while rounding is abstracted away: a
  parsed decimal counts as finite exactly when its value lies within the
  finite `f64` range `[-(2^53-1)*2^971, (2^53-1)*2^971]`, and otherwise
  behaves as an infinity (for which `Number::from_f64` returns `None`).
- Rust's `str::trim` and `str::starts_with` are modelled on character lists
  (`strTrim`, `strStartsWith`).
- `regex::Regex` is external; a compiled regex is modelled extensionally as
  its match predicate `String → Bool`.
- The `roxmltree` node tree is modelled by `XNode` (elements and text nodes;
  `Node::text` on an element returns the contents of its first child when
  that child is a text node).
- The `json_types`/`regex_path` feature-gated code is embedded as active.
-/

/-- XML attribute: a name/value string pair (roxmltree `Attribute`). -/
structure Attr where
  name : String
  value : String
deriving DecidableEq

/-- A roxmltree node, restricted to the kinds the converter distinguishes:
element nodes (tag name, attributes, children) and text nodes. -/
inductive XNode where
  | element (tag : String) (attrs : List Attr) (children : List XNode)
  | text (s : String)

/-- Tag name of a node: `Node::tag_name().name()`. Text nodes have an empty
tag name. -/
def tagName : XNode → String
  | XNode.element tag _ _ => tag
  | XNode.text _ => ""

/-- Attributes of a node: `Node::attributes()`. -/
def attrsOf : XNode → List Attr
  | XNode.element _ attrs _ => attrs
  | XNode.text _ => []

/-- Children of a node: `Node::children()`. -/
def childrenOf : XNode → List XNode
  | XNode.element _ _ children => children
  | XNode.text _ => []

/-- Direct text of a node, `roxmltree::Node::text`: for an element, the
contents of its first child provided that child is a text node; for a text
node, its own contents. -/
def nodeText : XNode → Option String
  | XNode.element _ _ children =>
    match children with
    | XNode.text s :: _ => some s
    | _ => none
  | XNode.text s => some s

/-- Exact unnormalized fraction modelling a finite `f64` value: `num / den`
with `den` a positive power of ten produced by the decimal parser. -/
structure DecFrac where
  num : Int
  den : Nat
deriving DecidableEq

/-- A `serde_json::Number`: `Number::from(u64)` or a finite float
(`Number::from_f64`), the latter modelled as an exact fraction. -/
inductive JNum where
  | uint (n : Nat)
  | float (q : DecFrac)
deriving DecidableEq

/-- A `serde_json::Value`. Objects are modelled as key-sorted association
lists (serde_json's default `Map` is a `BTreeMap`). -/
inductive Value where
  | null
  | bool (b : Bool)
  | num (n : JNum)
  | str (s : String)
  | arr (elems : List Value)
  | obj (entries : List (String × Value))

/-- Whether a `Value` is a float-backed number. -/
def Value.isFloat : Value → Bool
  | Value.num (JNum.float _) => true
  | _ => false

/-- Whether a `Value` is an object (`Value::Object`). -/
def Value.isObj : Value → Bool
  | Value.obj _ => true
  | _ => false

/-- Rust `str::trim` (leading and trailing whitespace removed), modelled on
the character list. -/
def strTrim (s : String) : String :=
  String.mk (((s.data.dropWhile Char.isWhitespace).reverse.dropWhile
    Char.isWhitespace).reverse)

/-- Rust `str::starts_with`, modelled on the character lists. -/
def strStartsWith (s pre : String) : Bool :=
  pre.data.isPrefixOf s.data

/-- Strict bytewise (equivalently, code-point-wise) order on character
lists: the key order of `BTreeMap<String, _>`. -/
def charListLt : List Char → List Char → Bool
  | [], [] => false
  | [], _ :: _ => true
  | _ :: _, [] => false
  | a :: as, b :: bs =>
    if a.toNat < b.toNat then true
    else if b.toNat < a.toNat then false
    else charListLt as bs

/-- Key order of `BTreeMap<String, Value>`. -/
def keyLt (a b : String) : Bool :=
  charListLt a.data b.data

/-- The map type underlying `Value.obj`: `serde_json::Map<String, Value>`. -/
abbrev JMap := List (String × Value)

/-- `BTreeMap::insert`: sorted insert, replacing the value when the key is
already present. -/
def mapInsert (k : String) (v : Value) : JMap → JMap
  | [] => [(k, v)]
  | (k', v') :: rest =>
    if keyLt k k' then (k, v) :: (k', v') :: rest
    else if k = k' then (k, v) :: rest
    else (k', v') :: mapInsert k v rest

/-- `BTreeMap::get`. -/
def mapGet (m : JMap) (k : String) : Option Value :=
  match m with
  | [] => none
  | (k', v) :: rest => if k = k' then some v else mapGet rest k

/-- `BTreeMap::contains_key`. -/
def mapContains (m : JMap) (k : String) : Bool :=
  (mapGet m k).isSome

/-- `BTreeMap::remove` (drops the first occurrence of the key; keys are
unique in every reachable map). -/
def mapRemove (k : String) : JMap → JMap
  | [] => []
  | (k', v) :: rest => if k = k' then rest else (k', v) :: mapRemove k rest

/-- Collecting an iterator of pairs into a `Map` (`.collect()`): left fold of
inserts into an empty map. -/
def collectEntries (l : List (String × Value)) : JMap :=
  l.foldl (fun m kv => mapInsert kv.1 kv.2 m) []

/-- `NullValue`: how empty elements are handled. -/
inductive NullValue where
  | Ignore
  | Null
  | EmptyObject
deriving DecidableEq

/-- `JsonType`: which JSON data type to enforce for a node's value. -/
inductive JsonType where
  | AlwaysString
  | Bool (true_values : List String)
  | Infer
deriving DecidableEq

/-- `JsonArray`: whether values of a node are forced into a JSON array
(`Always`) or arrays arise only from duplicate elements (`Infer`). -/
inductive JsonArray where
  | Always (t : JsonType)
  | Infer (t : JsonType)

/-- A compiled `regex::Regex`, modelled extensionally by its match
predicate (`Regex::is_match`). -/
abbrev Regex := String → Bool

/-- `Config`: conversion settings (with the `json_types` and `regex_path`
features, so both override tables are present).  The `HashMap` of exact
overrides is modelled as an association list with first-match lookup. -/
structure Config where
  leading_zero_as_string : Bool
  xml_attr_prefix : String
  xml_text_node_prop_name : String
  empty_element_handling : NullValue
  json_type_overrides : List (String × JsonArray)
  json_regex_type_overrides : List (Regex × JsonArray)

/-- `Config::new_with_defaults`. -/
def Config.new_with_defaults : Config :=
  { leading_zero_as_string := false
    xml_attr_prefix := "@"
    xml_text_node_prop_name := "#text"
    empty_element_handling := NullValue.EmptyObject
    json_type_overrides := []
    json_regex_type_overrides := [] }

/-- `Config::new_with_custom_values`. -/
def Config.new_with_custom_values (leading_zero_as_string : Bool)
    ( xml_attr_prefix : String) (xml_text_node_prop_name : String)
    (empty_element_handling : NullValue) : Config :=
  { leading_zero_as_string := leading_zero_as_string
    xml_attr_prefix := xml_attr_prefix
    xml_text_node_prop_name := xml_text_node_prop_name
    empty_element_handling := empty_element_handling
    json_type_overrides := []
    json_regex_type_overrides := [] }

/-- Unpacking a `JsonArray` override into the `(bool, &JsonType)` tuple
returned by the resolver: `Infer(v) => (false, v)`, `Always(v) => (true, v)`. -/
def unpackJsonArray : JsonArray → Bool × JsonType
  | JsonArray.Infer v => (false, v)
  | JsonArray.Always v => (true, v)

/-- `get_json_type_with_absolute_path`: exact-path lookup in
`json_type_overrides`, defaulting to `Infer(Infer)`. -/
def get_json_type_with_absolute_path (config : Config) (path : String) :
    Bool × JsonType :=
  unpackJsonArray
    ((config.json_type_overrides.lookup path).getD (JsonArray.Infer JsonType.Infer))

/-- `get_json_type` (with the `regex_path` feature): scan the regex overrides
in registration order and return the first match; otherwise fall back to the
exact-path table. -/
def get_json_type (config : Config) (path : String) : Bool × JsonType :=
  match config.json_regex_type_overrides.find? (fun ro => ro.1 path) with
  | some ro => unpackJsonArray ro.2
  | none => get_json_type_with_absolute_path config path

/-- Numeric value of a list of decimal digits. -/
def decListVal (cs : List Char) : Nat :=
  cs.foldl (fun a c => a * 10 + (c.toNat - 48)) 0

/-- `str::parse::<u64>()`: an optional leading `+`, then one or more decimal
digits, with the value required to fit in 64 bits. -/
def parseU64 (s : String) : Option Nat :=
  let cs := match s.data with
    | '+' :: r => r
    | cs => cs
  if cs = [] then none
  else if cs.all Char.isDigit then
    let v := decListVal cs
    if v < 2 ^ 64 then some v else none
  else none

/-- `str::parse::<bool>()`: exactly `"true"` or `"false"`. -/
def parseBool (s : String) : Option Bool :=
  if s = "true" then some true
  else if s = "false" then some false
  else none

/-- Outcome of `str::parse::<f64>()` with rounding abstracted: either an
exact finite decimal value, or a non-finite result (infinity/NaN, for which
`serde_json::Number::from_f64` returns `None`). -/
inductive FParse where
  | finite (q : DecFrac)
  | nonfinite
deriving DecidableEq

/-- Result of scanning the decimal syntax of a float literal. -/
inductive DecResult where
  | finiteParts (neg : Bool) (mant : Nat) (fracLen : Nat) (exp : Int)
  | special

/-- Splits a character list into its leading run of decimal digits and the
rest. -/
def spanDigits : List Char → List Char × List Char
  | [] => ([], [])
  | c :: rest =>
    if c.isDigit then
      let (d, r) := spanDigits rest
      (c :: d, r)
    else ([], c :: rest)

/-- Parses the exponent-tail of a float literal: optional sign then one or
more digits, consuming the whole remaining input. -/
def parseExpTail (cs : List Char) : Option Int :=
  let (eneg, cs) := match cs with
    | '+' :: r => (false, r)
    | '-' :: r => (true, r)
    | _ => (false, cs)
  let (d, r) := spanDigits cs
  if d = [] then none
  else if r ≠ [] then none
  else some (if eneg then -(decListVal d : Int) else (decListVal d : Int))

/-- Parses the optional exponent part of a float literal. -/
def parseExp : List Char → Option Int
  | [] => some 0
  | 'e' :: rest => parseExpTail rest
  | 'E' :: rest => parseExpTail rest
  | _ => none

/-- Exact fractional value of a parsed decimal literal. -/
def fracOfParts (neg : Bool) (mant fracLen : Nat) (exp : Int) : DecFrac :=
  let mag : Nat := if 0 ≤ exp then mant * 10 ^ exp.toNat else mant
  let den : Nat := if 0 ≤ exp then 10 ^ fracLen
    else 10 ^ fracLen * 10 ^ (-exp).toNat
  { num := if neg then -(mag : Int) else (mag : Int), den := den }

/-- ASCII lowercasing on code points, for the case-insensitive special float
words. -/
def lowerNat (c : Char) : Nat :=
  let n := c.toNat
  if 65 ≤ n ∧ n ≤ 90 then n + 32 else n

/-- Scanner for Rust's `f64` literal grammar: optional sign, then either a
special word (`inf`/`infinity`/`nan`, case-insensitive) or
`digits [. digits] [(e|E) [sign] digits]` with at least one mantissa digit. -/
def parseDecCore (cs0 : List Char) : Option DecResult :=
  let (neg, cs) := match cs0 with
    | '+' :: r => (false, r)
    | '-' :: r => (true, r)
    | _ => (false, cs0)
  let low := cs.map lowerNat
  if low = "inf".data.map Char.toNat ∨ low = "infinity".data.map Char.toNat
      ∨ low = "nan".data.map Char.toNat then
    some DecResult.special
  else
    let (intD, rest1) := spanDigits cs
    let (fracD, rest2) :=
      match rest1 with
      | '.' :: r => spanDigits r
      | _ => (([] : List Char), rest1)
    if intD ++ fracD = [] then none
    else
      match parseExp rest2 with
      | none => none
      | some e =>
        some (DecResult.finiteParts neg (decListVal (intD ++ fracD)) fracD.length e)

/-- Largest finite `f64` value, `(2^53 - 1) * 2^971`. -/
def f64MaxNat : Nat := (2 ^ 53 - 1) * 2 ^ 971

/-- Whether the exact value of a parsed decimal lies in the finite `f64`
range (the check performed by `serde_json::Number::from_f64` modulo
rounding). -/
def f64Finite (q : DecFrac) : Bool :=
  decide (-((f64MaxNat : Int) * (q.den : Int)) ≤ q.num
    ∧ q.num ≤ (f64MaxNat : Int) * (q.den : Int))

/-- `str::parse::<f64>()` under the exact-fraction model: grammar per Rust's
`FromStr for f64`; a decimal whose exact value lies outside the finite `f64`
range behaves as an infinity. -/
def parseF64 (s : String) : Option FParse :=
  match parseDecCore s.data with
  | none => none
  | some DecResult.special => some FParse.nonfinite
  | some (DecResult.finiteParts neg mant fracLen exp) =>
    let q := fracOfParts neg mant fracLen exp
    if f64Finite q then some (FParse.finite q)
    else some FParse.nonfinite

/-- Tail of `parse_text` after the int and float attempts: try `bool`, then
fall back to a string. -/
def parse_text_rest (text : String) : Value :=
  match parseBool text with
  | some b => Value.bool b
  | none => Value.str text

/-- `parse_text` (lib.rs lines 263-310): returns the text as one of the
`serde_json::Value` scalar types: int, float, bool or string. -/
def parse_text (text0 : String) (leading_zero_as_string : Bool)
    (json_type : JsonType) : Value :=
  let text := strTrim text0
  match json_type with
  | JsonType.AlwaysString => Value.str text
  | JsonType.Bool true_values =>
    if true_values.contains text then Value.bool true else Value.bool false
  | JsonType.Infer =>
    match parseU64 text with
    | some v =>
      if leading_zero_as_string && strStartsWith text "0"
          && (v != 0 || decide (text.length > 1)) then
        Value.str text
      else Value.num (JNum.uint v)
    | none =>
      match parseF64 text with
      | some p =>
        if strStartsWith text "0" && !strStartsWith text "0." then
          Value.str text
        else
          match p with
          | FParse.finite q => Value.num (JNum.float q)
          | FParse.nonfinite => parse_text_rest text
      | none => parse_text_rest text

/-- Loop body of `convert_no_text`'s child loop for a value-producing child
with a non-empty tag name (lib.rs lines 387-413): resolve the array flag for
the child's path and either promote to / extend an array, or insert as-is. -/
def childStep (config : Config) (path : String) (data : JMap) (name : String)
    (val : Value) : JMap :=
  let cpath := path ++ "/" ++ name
  if (get_json_type config cpath).1 || mapContains data name then
    match mapGet data name with
    | some (Value.arr xs) => mapInsert name (Value.arr (xs ++ [val])) data
    | some temp => mapInsert name (Value.arr [temp, val]) (mapRemove name data)
    | none => mapInsert name (Value.arr [val]) data
  else
    mapInsert name val data

/-- Attribute loop of `convert_no_text` (lib.rs lines 362-377): insert one
entry per attribute, keyed `xml_attr_prefix ++ name`, parsed with the type
rule resolved for the attribute's own path. -/
def attrFold (config : Config) (path : String) (attrs : List Attr) : JMap :=
  attrs.foldl
    (fun data attr =>
      let apath := path ++ "/@" ++ attr.name
      let jtv := (get_json_type config apath).2
      mapInsert (Config.xml_attr_prefix config ++ attr.name)
        (parse_text attr.value config.leading_zero_as_string jtv) data)
    []

/-- `convert_text` (lib.rs lines 312-351): an element with non-blank text.
With attributes, build an object of the attribute entries followed by the
text-node entry; without attributes, return the parsed text directly.  The
embedding receives the attribute list in place of the node.  The source
refers to a variable `path` that `convert_text` does not receive (lib.rs
line 325, code active under the `json_types` feature); the embedding passes
the node's path, as in the parallel code of `convert_no_text`. -/
def convert_text (config : Config) (path : String) (attrs : List Attr)
    (text : String) (json_type_value : JsonType) : Option Value :=
  if attrs.length > 0 then
    some (Value.obj (collectEntries (
      attrs.map (fun attr =>
        let apath := path ++ "/@" ++ attr.name
        let jtv := (get_json_type config apath).2
        (Config.xml_attr_prefix config ++ attr.name,
         parse_text attr.value config.leading_zero_as_string jtv))
      ++ [(config.xml_text_node_prop_name,
           parse_text text config.leading_zero_as_string json_type_value)])))
  else
    some (parse_text text config.leading_zero_as_string json_type_value)

/-- Tail of `convert_no_text` (lib.rs lines 420-430): return the object if
non-empty, otherwise apply the empty-element handling. -/
def finishNoText (config : Config) (data : JMap) : Option Value :=
  if data.isEmpty then
    match config.empty_element_handling with
    | NullValue.Null => some Value.null
    | NullValue.EmptyObject => some (Value.obj data)
    | NullValue.Ignore => none
  else some (Value.obj data)

mutual

/-- `convert_node` (lib.rs lines 434-456): extend the path with the node's
tag, resolve its type rule, and dispatch on `Node::text()`: non-blank text
goes to `convert_text`, anything else to the no-text conversion (spelled out
here as `attrFold`/`convert_children`/`finishNoText`, packaged as
`convert_no_text` below). -/
def convert_node (config : Config) (path : String) : XNode → Option Value
  | XNode.element tag attrs children =>
    let npath := path ++ "/" ++ tag
    let jtv := (get_json_type config npath).2
    match children with
    | XNode.text s :: _ =>
      let t := strTrim s
      if t ≠ "" then convert_text config npath attrs t jtv
      else finishNoText config
        (convert_children config npath children (attrFold config npath attrs))
    | _ =>
      finishNoText config
        (convert_children config npath children (attrFold config npath attrs))
  | XNode.text s =>
    let npath := path ++ "/" ++ ""
    let jtv := (get_json_type config npath).2
    let t := strTrim s
    if t ≠ "" then convert_text config npath [] t jtv
    else finishNoText config []

/-- Child loop of `convert_no_text` (lib.rs lines 380-418): children yielding
no value and children with an empty tag name are skipped; the rest go through
`childStep`. -/
def convert_children (config : Config) (path : String) :
    List XNode → JMap → JMap
  | [], data => data
  | child :: rest, data =>
    let data' :=
      match convert_node config path child with
      | some val =>
        let name := tagName child
        if name = "" then data else childStep config path data name val
      | none => data
    convert_children config path rest data'

end

/-- `convert_no_text` (lib.rs lines 353-431): build an object from the
attributes and the recursively converted children; an empty object is
handled per `empty_element_handling`.  (The unused `json_type_value`
parameter mirrors the source signature.) -/
def convert_no_text (config : Config) (path : String) (el : XNode)
    (json_type_value : JsonType) : Option Value :=
  finishNoText config
    (convert_children config path (childrenOf el)
      (attrFold config path (attrsOf el)))

/-- `xml_to_map` (lib.rs lines 458-465): wrap the converted root under its
tag name, substituting JSON null when the conversion yields nothing. -/
def xml_to_map (e : XNode) (config : Config) : Value :=
  Value.obj (mapInsert (tagName e) ((convert_node config "" e).getD Value.null) [])

/-- The error type of the external parser (`roxmltree::Error`), abstracted. -/
structure XmlError where
  msg : String
deriving DecidableEq

/-- `xml_str_to_json` (lib.rs lines 468-472): the external
`roxmltree::Document::parse` plus `root_element` step is abstracted as an
already-computed `Except` value; on success the root is converted. -/
def xml_str_to_json (parseResult : Except XmlError XNode) (config : Config) :
    Except XmlError Value :=
  match parseResult with
  | Except.error e => Except.error e
  | Except.ok root => Except.ok (xml_to_map root config)

/-- Object built by `convert_no_text` before the emptiness check. -/
def buildData (config : Config) (path : String) (el : XNode) : JMap :=
  convert_children config path (childrenOf el) (attrFold config path (attrsOf el))

/-- The tree of `<a><b>1</b></a>`. -/
def exA : XNode :=
  XNode.element "a" [] [XNode.element "b" [] [XNode.text "1"]]

/-- The tree of `<a><b>1</b><b>2</b><b>3</b></a>`. -/
def exA3 : XNode :=
  XNode.element "a" []
    [XNode.element "b" [] [XNode.text "1"],
     XNode.element "b" [] [XNode.text "2"],
     XNode.element "b" [] [XNode.text "3"]]

/-- Default config with an `AlwaysString` exact-path override on
`/a/b/@attr2` (as added by `add_json_type_override`). -/
def cfgAttr2 : Config :=
  { Config.new_with_defaults with
    json_type_overrides := [("/a/b/@attr2", JsonArray.Infer JsonType.AlwaysString)] }

/-- Custom config with an empty attribute prefix. -/
def cfgNoPrefix : Config :=
  Config.new_with_custom_values false "" "#text" NullValue.EmptyObject

/-- Default config with a regex override matching exactly `/a/b` and a
conflicting exact-path override on the same path. -/
def cfgRegex : Config :=
  { Config.new_with_defaults with
    json_type_overrides := [("/a/b", JsonArray.Infer JsonType.Infer)]
    json_regex_type_overrides :=
      [(fun s => s == "/a/b", JsonArray.Always JsonType.AlwaysString)] }

/-- Default config except that empty elements are ignored. -/
def cfgIgnore : Config :=
  Config.new_with_custom_values false "@" "#text" NullValue.Ignore

theorem mapGet_mapInsert_self (k : String) (v : Value) (m : JMap) :
    mapGet (mapInsert k v m) k = some v := by
  induction m with
  | nil => simp [mapInsert, mapGet]
  | cons hd tl ih =>
    obtain ⟨k', v'⟩ := hd
    simp only [mapInsert]
    split
    · simp [mapGet]
    · split
      · simp [mapGet]
      · next h1 h2 => simp only [mapGet, if_neg h2]; exact ih

theorem mapGet_mapInsert_ne (k : String) (v : Value) (m : JMap) (k' : String)
    (h : k' ≠ k) : mapGet (mapInsert k v m) k' = mapGet m k' := by
  induction m with
  | nil => simp [mapInsert, mapGet, h]
  | cons hd tl ih =>
    obtain ⟨a, b⟩ := hd
    simp only [mapInsert]
    split
    · simp [mapGet, h]
    · split
      · next h1 h2 =>
        subst h2
        simp only [mapGet, if_neg h]
      · next h1 h2 => simp only [mapGet]; split <;> [rfl; exact ih]

theorem mapGet_mapRemove_ne (k : String) (m : JMap) (k' : String)
    (h : k' ≠ k) : mapGet (mapRemove k m) k' = mapGet m k' := by
  induction m with
  | nil => simp [mapRemove]
  | cons hd tl ih =>
    obtain ⟨a, b⟩ := hd
    simp only [mapRemove]
    split
    · next h1 =>
      subst h1
      simp only [mapGet, if_neg h]
    · simp only [mapGet]; split <;> [rfl; exact ih]

/-- Sanity equation: the packaged converter agrees with the dispatch shape of
the source `convert_node` (text vs no-text on `Node::text()`). -/
theorem convert_node_eq (config : Config) (path : String) (el : XNode) :
    convert_node config path el =
      (let npath := path ++ "/" ++ tagName el
       let jtv := (get_json_type config npath).2
       match nodeText el with
       | some text =>
         if strTrim text ≠ "" then
           convert_text config npath (attrsOf el) (strTrim text) jtv
         else convert_no_text config npath el jtv
       | none => convert_no_text config npath el jtv) := by
  cases el with
  | element tag attrs children =>
    cases children with
    | nil => rfl
    | cons hd tl => cases hd <;> rfl
  | text s => rfl

/-- `convert_text` always produces a value. -/
theorem convert_text_isSome (config : Config) (path : String)
    (attrs : List Attr) (text : String) (jtv : JsonType) :
    (convert_text config path attrs text jtv).isSome = true := by
  unfold convert_text
  split <;> rfl

/-- `finishNoText` yields nothing exactly for an empty object under the
`Ignore` policy. -/
theorem finishNoText_none_iff (config : Config) (data : JMap) :
    finishNoText config data = none ↔
      data = [] ∧ config.empty_element_handling = NullValue.Ignore := by
  unfold finishNoText
  rcases data with _ | ⟨hd, tl⟩
  · cases h : config.empty_element_handling <;> simp [h, List.isEmpty]
  · simp [List.isEmpty]

/-- `convert_no_text` yields nothing exactly for an empty built object under
the `Ignore` policy. -/
theorem convert_no_text_none_iff (config : Config) (path : String)
    (el : XNode) (jtv : JsonType) :
    convert_no_text config path el jtv = none ↔
      buildData config path el = [] ∧
        config.empty_element_handling = NullValue.Ignore := by
  unfold convert_no_text buildData
  exact finishNoText_none_iff config _

/-- `convert_node` yields nothing only for a node that builds an empty
object under the `Ignore` policy. -/
theorem convert_node_none (config : Config) (path : String) (el : XNode)
    (h : convert_node config path el = none) :
    config.empty_element_handling = NullValue.Ignore ∧
      buildData config (path ++ "/" ++ tagName el) el = [] := by
  rw [convert_node_eq] at h
  simp only at h
  rcases ht : nodeText el with _ | text
  · rw [ht] at h
    have := (convert_no_text_none_iff config (path ++ "/" ++ tagName el) el
      (get_json_type config (path ++ "/" ++ tagName el)).2).mp h
    exact ⟨this.2, this.1⟩
  · rw [ht] at h
    dsimp only at h
    by_cases hb : strTrim text ≠ ""
    · rw [if_pos hb] at h
      have := convert_text_isSome config (path ++ "/" ++ tagName el)
        (attrsOf el) (strTrim text) (get_json_type config (path ++ "/" ++ tagName el)).2
      rw [h] at this
      exact absurd this (by simp)
    · rw [if_neg hb] at h
      have := (convert_no_text_none_iff config (path ++ "/" ++ tagName el) el
        (get_json_type config (path ++ "/" ++ tagName el)).2).mp h
      exact ⟨this.2, this.1⟩

/-- `parse_text` never returns an object. -/
theorem parse_text_not_obj (t : String) (lz : Bool) (jt : JsonType) :
    Value.isObj (parse_text t lz jt) = false := by
  unfold parse_text parse_text_rest
  cases jt <;> simp only
  · rfl
  · split <;> rfl
  · split
    · split <;> rfl
    · split
      · split
        · rfl
        · split
          · rfl
          · split <;> rfl
      · split <;> rfl

/-- A string accepted by the float parser is not a boolean literal. -/
theorem parseBool_none_of_parseF64 (t : String) (p : FParse)
    (h : parseF64 t = some p) : parseBool t = none := by
  by_cases h1 : t = "true"
  · subst h1
    have hn : parseF64 "true" = none := rfl
    rw [hn] at h
    exact Option.noConfusion h
  · by_cases h2 : t = "false"
    · subst h2
      have hn : parseF64 "false" = none := rfl
      rw [hn] at h
      exact Option.noConfusion h
    · unfold parseBool
      rw [if_neg h1, if_neg h2]

/-- C1: in the no-text branch, a value-producing child is array-promoted
exactly when the resolved array policy for its path is `Always` or its tag
key is already present in the object under construction; on promotion an
existing array is appended to, a single prior value becomes
`[previous, new]`, an absent key receives `[new]`; otherwise the value is
inserted as-is.  `<a><b>1</b></a>` converts to `{"a":{"b":1}}` and
`<a><b>1</b><b>2</b><b>3</b></a>` to `{"a":{"b":[1,2,3]}}`. -/
theorem c1_child_array_promotion :
    (∀ (config : Config) (path : String) (data : JMap) (name : String)
        (val : Value),
      mapGet (childStep config path data name val) name =
        some (if (get_json_type config (path ++ "/" ++ name)).1
            || mapContains data name then
          Value.arr ((match mapGet data name with
            | some (Value.arr xs) => xs
            | some old => [old]
            | none => ([] : List Value)) ++ [val])
        else val))
    ∧ (∀ (config : Config) (path : String) (data : JMap) (name : String)
        (val : Value) (k : String), k ≠ name →
        mapGet (childStep config path data name val) k = mapGet data k)
    ∧ xml_to_map exA Config.new_with_defaults =
        Value.obj [("a", Value.obj [("b", Value.num (JNum.uint 1))])]
    ∧ xml_to_map exA3 Config.new_with_defaults =
        Value.obj [("a", Value.obj [("b", Value.arr
          [Value.num (JNum.uint 1), Value.num (JNum.uint 2),
           Value.num (JNum.uint 3)])])] := by
  refine ⟨?_, ?_, rfl, rfl⟩
  · intro config path data name val
    simp only [childStep]
    by_cases hpro : ((get_json_type config (path ++ "/" ++ name)).1
        || mapContains data name) = true
    · rw [if_pos hpro, if_pos hpro]
      rcases hg : mapGet data name with _ | v0
      · simp [hg, mapGet_mapInsert_self]
      · cases v0 <;> simp [hg, mapGet_mapInsert_self]
    · rw [if_neg hpro, if_neg hpro, mapGet_mapInsert_self]
  · intro config path data name val k hk
    simp only [childStep]
    split
    · rcases hg : mapGet data name with _ | v0
      · simp only [hg, mapGet_mapInsert_ne _ _ _ _ hk]
      · cases v0 <;>
          simp only [hg, mapGet_mapInsert_ne _ _ _ _ hk,
            mapGet_mapRemove_ne _ _ _ hk]
    · exact mapGet_mapInsert_ne _ _ _ _ hk

/-- Witness for the promotion theorem at a concrete input: inserting child
`"b"` leaves the unrelated key `"x"` untouched. -/
theorem c1_child_array_promotion_witness :
    mapGet (childStep Config.new_with_defaults "/a" [("x", Value.null)] "b"
        (Value.num (JNum.uint 1))) "x" = mapGet [("x", Value.null)] "x" :=
  c1_child_array_promotion.2.1 Config.new_with_defaults "/a"
    [("x", Value.null)] "b" (Value.num (JNum.uint 1)) "x" (by decide)

/-- C2: the top-level conversion always yields a one-key object keyed by the
root's tag name; a root whose conversion yields nothing (which forces the
`Ignore` policy and an empty built object) degrades to a JSON null value
under the root key; and the degrade-to-null substitution is not applied
recursively: a non-root child yielding nothing is skipped. -/
theorem c2_root_key_null_degrade :
    (∀ (e : XNode) (config : Config), ∃ v,
        xml_to_map e config = Value.obj [(tagName e, v)])
    ∧ (∀ (e : XNode) (config : Config), convert_node config "" e = none →
        xml_to_map e config = Value.obj [(tagName e, Value.null)]
        ∧ config.empty_element_handling = NullValue.Ignore
        ∧ buildData config ("" ++ "/" ++ tagName e) e = [])
    ∧ (∀ (config : Config) (path : String) (child : XNode)
        (rest : List XNode) (data : JMap),
        convert_node config path child = none →
        convert_children config path (child :: rest) data =
          convert_children config path rest data) := by
  refine ⟨?_, ?_, ?_⟩
  · intro e config
    exact ⟨(convert_node config "" e).getD Value.null, rfl⟩
  · intro e config h
    have hni := convert_node_none config "" e h
    refine ⟨?_, hni.1, hni.2⟩
    unfold xml_to_map
    rw [h]
    rfl
  · intro config path child rest data h
    simp only [convert_children, h]

/-- Witness for the degrade-to-null clause: an empty root under the `Ignore`
policy converts to a null-valued one-key object. -/
theorem c2_root_key_null_degrade_witness :
    xml_to_map (XNode.element "a" [] []) cfgIgnore =
        Value.obj [("a", Value.null)]
      ∧ cfgIgnore.empty_element_handling = NullValue.Ignore
      ∧ buildData cfgIgnore ("" ++ "/" ++ "a") (XNode.element "a" [] []) = [] :=
  c2_root_key_null_degrade.2.1 (XNode.element "a" [] []) cfgIgnore (by rfl)

set_option maxRecDepth 100000 in
/-- C3 counterexample: the trimmed text `"-5"` denotes an integral number,
yet under the `Infer` rule it is returned as a float: only unsigned 64-bit
integer parsing is attempted before the floating-point parse, and `"-5"`
fails it, so the claim that integral text is never returned as a float is
false at this input. -/
theorem c3_integral_float_counterexample :
    parse_text "-5" false JsonType.Infer =
        Value.num (JNum.float { num := -5, den := 1 })
      ∧ Value.isFloat (parse_text "-5" false JsonType.Infer) = true :=
  ⟨rfl, rfl⟩

/-- C3 (amended): integer parsing is attempted strictly before
floating-point parsing, so a trimmed text accepted by the unsigned 64-bit
integer parser is never returned as a float. -/
theorem c3_uint_never_float (s : String) (lz : Bool)
    (h : (parseU64 (strTrim s)).isSome = true) :
    Value.isFloat (parse_text s lz JsonType.Infer) = false := by
  unfold parse_text
  rcases hu : parseU64 (strTrim s) with _ | v
  · rw [hu] at h
    exact absurd h (by simp)
  · simp only [hu]
    split <;> rfl

/-- Witness for the amended C3 theorem at the input `"7"`. -/
theorem c3_uint_never_float_witness :
    Value.isFloat (parse_text "7" false JsonType.Infer) = false :=
  c3_uint_never_float "7" false (by rfl)

/-- C4: override resolution tests each registered regex in registration
order with the first match winning regardless of the exact-match table;
otherwise the exact-match table is consulted; otherwise the default
`(Infer, Infer)` — i.e. `(false, JsonType.Infer)` — is returned. -/
theorem c4_override_resolution_order :
    (∀ (config : Config) (path : String) (pre : List (Regex × JsonArray))
        (r : Regex) (ja : JsonArray) (rest : List (Regex × JsonArray)),
        config.json_regex_type_overrides = pre ++ (r, ja) :: rest →
        (∀ ro ∈ pre, ro.1 path = false) → r path = true →
        get_json_type config path = unpackJsonArray ja)
    ∧ (∀ (config : Config) (path : String) (ja : JsonArray),
        (∀ ro ∈ config.json_regex_type_overrides, ro.1 path = false) →
        config.json_type_overrides.lookup path = some ja →
        get_json_type config path = unpackJsonArray ja)
    ∧ (∀ (config : Config) (path : String),
        (∀ ro ∈ config.json_regex_type_overrides, ro.1 path = false) →
        config.json_type_overrides.lookup path = none →
        get_json_type config path = (false, JsonType.Infer)) := by
  refine ⟨?_, ?_, ?_⟩
  · intro config path pre r ja rest hconf hpre hr
    unfold get_json_type
    rw [hconf]
    have hnone : pre.find? (fun ro => ro.1 path) = none :=
      List.find?_eq_none.mpr (fun x hx => by simp [hpre x hx])
    have hfind : List.find? (fun ro => ro.1 path) ((r, ja) :: rest) =
        some (r, ja) := by
      simp only [List.find?]
      rw [hr]
    rw [List.find?_append, hnone]
    simp only [Option.none_or]
    rw [hfind]
  · intro config path ja hall hlook
    unfold get_json_type
    have hnone : config.json_regex_type_overrides.find?
        (fun ro => ro.1 path) = none :=
      List.find?_eq_none.mpr (fun x hx => by simp [hall x hx])
    rw [hnone]
    unfold get_json_type_with_absolute_path
    rw [hlook]
    rfl
  · intro config path hall hlook
    unfold get_json_type
    have hnone : config.json_regex_type_overrides.find?
        (fun ro => ro.1 path) = none :=
      List.find?_eq_none.mpr (fun x hx => by simp [hall x hx])
    rw [hnone]
    unfold get_json_type_with_absolute_path
    rw [hlook]
    rfl

/-- Witness for the resolver order at a concrete input: the regex rule
matching `/a/b` wins over the exact-path rule registered for the very same
path. -/
theorem c4_override_resolution_order_witness :
    get_json_type cfgRegex "/a/b" = (true, JsonType.AlwaysString) :=
  c4_override_resolution_order.1 cfgRegex "/a/b" []
    (fun s => s == "/a/b") (JsonArray.Always JsonType.AlwaysString) []
    rfl (by simp) (by rfl)

/-- C5: when the trimmed text parses as an unsigned integer under the
`Infer` rule, the text is returned as a string exactly when
`leading_zero_as_string` is set, the text starts with `'0'`, and the value
is nonzero or the text longer than one character; otherwise the integer is
returned.  `"0"` always becomes integer 0; `"007"` becomes the string
`"007"` with the flag set and the integer 7 otherwise. -/
theorem c5_leading_zero_integer :
    (∀ (s : String) (lz : Bool) (v : Nat), parseU64 (strTrim s) = some v →
      parse_text s lz JsonType.Infer =
        if lz && strStartsWith (strTrim s) "0"
            && (v != 0 || decide ((strTrim s).length > 1)) then
          Value.str (strTrim s)
        else Value.num (JNum.uint v))
    ∧ (∀ lz, parse_text "0" lz JsonType.Infer = Value.num (JNum.uint 0))
    ∧ parse_text "007" true JsonType.Infer = Value.str "007"
    ∧ parse_text "007" false JsonType.Infer = Value.num (JNum.uint 7)
    ∧ parse_text "0000" true JsonType.Infer = Value.str "0000"
    ∧ parse_text "0000" false JsonType.Infer = Value.num (JNum.uint 0) := by
  refine ⟨?_, ?_, rfl, rfl, rfl, rfl⟩
  · intro s lz v hu
    unfold parse_text
    simp only [hu]
  · intro lz
    cases lz <;> rfl

/-- Witness for the leading-zero rule at the input `"05"`. -/
theorem c5_leading_zero_integer_witness :
    parse_text "05" true JsonType.Infer = Value.str "05" := by
  have h := c5_leading_zero_integer.1 "05" true 5 rfl
  rw [h]
  rfl

set_option maxRecDepth 400000 in
/-- C6: when the trimmed text fails integer parsing but is accepted by the
floating-point parser under the `Infer` rule, a text starting with `'0'` but
not `"0."` is returned as a string; otherwise a finite parsed value is
returned as a float, while a value outside the representable finite range
falls back to the string form of the text (`"1e999"`), not an error. -/
theorem c6_float_branch :
    (∀ (s : String) (lz : Bool) (p : FParse),
        parseU64 (strTrim s) = none → parseF64 (strTrim s) = some p →
        parse_text s lz JsonType.Infer =
          if strStartsWith (strTrim s) "0"
              && !strStartsWith (strTrim s) "0." then
            Value.str (strTrim s)
          else
            match p with
            | FParse.finite q => Value.num (JNum.float q)
            | FParse.nonfinite => Value.str (strTrim s))
    ∧ parse_text "1e999" false JsonType.Infer = Value.str "1e999"
    ∧ parse_text "01.5" false JsonType.Infer = Value.str "01.5" := by
  refine ⟨?_, rfl, rfl⟩
  intro s lz p hu hf
  unfold parse_text
  simp only [hu, hf]
  by_cases hc : (strStartsWith (strTrim s) "0"
      && !strStartsWith (strTrim s) "0.") = true
  · rw [if_pos hc, if_pos hc]
  · rw [if_neg hc, if_neg hc]
    cases p with
    | finite q => rfl
    | nonfinite =>
      unfold parse_text_rest
      rw [parseBool_none_of_parseF64 _ _ hf]

set_option maxRecDepth 400000 in
/-- Witness for the float branch at the input `"2.5"`, which is returned as
a float. -/
theorem c6_float_branch_witness :
    parse_text "2.5" false JsonType.Infer =
      Value.num (JNum.float { num := 25, den := 10 }) := by
  have h := c6_float_branch.1 "2.5" false
    (FParse.finite { num := 25, den := 10 }) rfl rfl
  rw [h]
  rfl

/-- C7 counterexample: for the element `<c attr2="001">some text</c>` under
the default config (as in the crate's own doc example, lib.rs line 35) the
produced object's entries are NOT one attribute entry followed by the
text-node entry: the text entry `"#text"` comes first, because the
underlying `serde_json::Map` is a key-sorted `BTreeMap`, so entry order is
key order rather than document order. -/
theorem c7_entry_order_counterexample :
    convert_node Config.new_with_defaults "/a"
        (XNode.element "c" [Attr.mk "attr2" "001"] [XNode.text "some text"]) =
      some (Value.obj [("#text", Value.str "some text"),
        ("@attr2", Value.num (JNum.uint 1))]) := rfl

/-- C7 (amended): for every element with non-blank text and at least one
attribute, conversion produces an object with one entry per attribute keyed
`attrPrefix ++ attrName` (value inferred using the type rule resolved for
the attribute's own path `nodePath/@attrName`), plus one entry keyed
`textNodePropName` holding the inferred text value; the entries are ordered
by key (sorted map), not document order.  The `AlwaysString` override on
`/a/b/@attr2` applied to `<a><b attr2="001">x</b></a>` keeps
`"attr2":"001"` verbatim. -/
theorem c7_text_with_attrs_amended :
    (∀ (config : Config) (path : String) (attrs : List Attr) (text : String)
        (jtv : JsonType), attrs ≠ [] →
      convert_text config path attrs text jtv =
        some (Value.obj (collectEntries (
          attrs.map (fun attr =>
            (Config.xml_attr_prefix config ++ attr.name,
             parse_text attr.value config.leading_zero_as_string
               (get_json_type config (path ++ "/@" ++ attr.name)).2))
          ++ [(config.xml_text_node_prop_name,
               parse_text text config.leading_zero_as_string jtv)]))))
    ∧ convert_node cfgAttr2 "/a"
        (XNode.element "b" [Attr.mk "attr2" "001"] [XNode.text "x"]) =
      some (Value.obj [("#text", Value.str "x"),
        ("@attr2", Value.str "001")]) := by
  refine ⟨?_, rfl⟩
  intro config path attrs text jtv h
  have hlen : attrs.length > 0 := by
    cases attrs with
    | nil => exact absurd rfl h
    | cons a tl => simp
  unfold convert_text
  rw [if_pos hlen]

/-- Witness for the amended C7 theorem at a concrete element with one
attribute: the attribute entry and the text entry both appear, in key
order. -/
theorem c7_text_with_attrs_amended_witness :
    convert_text Config.new_with_defaults "/p" [Attr.mk "z" "1"] "t"
        JsonType.Infer =
      some (Value.obj [("#text", Value.str "t"),
        ("@z", Value.num (JNum.uint 1))]) := by
  have h := c7_text_with_attrs_amended.1 Config.new_with_defaults "/p"
    [Attr.mk "z" "1"] "t" JsonType.Infer (by simp)
  rw [h]
  rfl

/-- C8: an element with non-blank text and no attributes converts to the
inferred scalar directly, and `parse_text` never returns an object, so the
result is never wrapped in an object. -/
theorem c8_text_no_attrs_bare_scalar :
    (∀ (config : Config) (path : String) (tag : String) (s : String)
        (rest : List XNode), strTrim s ≠ "" →
      convert_node config path (XNode.element tag [] (XNode.text s :: rest)) =
        some (parse_text (strTrim s) config.leading_zero_as_string
          (get_json_type config (path ++ "/" ++ tag)).2))
    ∧ (∀ (t : String) (lz : Bool) (jt : JsonType),
        Value.isObj (parse_text t lz jt) = false) := by
  refine ⟨?_, parse_text_not_obj⟩
  intro config path tag s rest h
  simp only [convert_node]
  rw [if_pos h]
  rfl

/-- Witness for the bare-scalar theorem: `<x>5</x>` converts to the integer
5, not an object. -/
theorem c8_text_no_attrs_bare_scalar_witness :
    convert_node Config.new_with_defaults ""
        (XNode.element "x" [] [XNode.text "5"]) =
      some (Value.num (JNum.uint 5)) := by
  have h := c8_text_no_attrs_bare_scalar.1 Config.new_with_defaults "" "x"
    "5" [] (by decide)
  rw [h]
  rfl

/-- C9: the top-level conversion returns an error exactly when the external
parser failed (the error is surfaced and no partial value is produced);
a successfully parsed root always converts, producing a one-key,
root-tag-keyed value. -/
theorem c9_parse_error_propagation :
    (∀ (e : XmlError) (config : Config),
      xml_str_to_json (Except.error e) config = Except.error e)
    ∧ (∀ (root : XNode) (config : Config),
      xml_str_to_json (Except.ok root) config =
        Except.ok (xml_to_map root config))
    ∧ (∀ (root : XNode) (config : Config), ∃ v,
      xml_to_map root config = Value.obj [(tagName root, v)]) :=
  ⟨fun _ _ => rfl, fun _ _ => rfl,
   fun root config => ⟨(convert_node config "" root).getD Value.null, rfl⟩⟩

/-- C10: with an empty attribute prefix, an attribute entry inserted before
the child loop shares its key with a child element's tag, making the
duplicate-key promotion check fire even though no duplicate sibling tag
exists: `<a b="x"><b>1</b></a>` converts to `{"a":{"b":["x",1]}}`.  The
resolved array policy for `/a/b` is not `Always`, and the promotion is
triggered by the attribute-derived key already present in the object. -/
theorem c10_attr_child_key_merge :
    (get_json_type cfgNoPrefix "/a/b").1 = false
    ∧ mapContains (attrFold cfgNoPrefix "/a" [Attr.mk "b" "x"]) "b" = true
    ∧ xml_to_map (XNode.element "a" [Attr.mk "b" "x"]
        [XNode.element "b" [] [XNode.text "1"]]) cfgNoPrefix =
      Value.obj [("a", Value.obj [("b", Value.arr
        [Value.str "x", Value.num (JNum.uint 1)])])] :=
  ⟨rfl, rfl, rfl⟩
